import Mathlib

/-!
Shallow embedding of the Flagsmith flag-resolution core, translated from
`src/api/environments/models.py`, `src/api/environments/identities/models.py`,
`src/api/environments/permissions/permissions.py` and
`src/api/edge_api/identities/views.py`.  Machine integers are modelled as
`Nat`; nullable columns as `Option`; querysets as explicit `List`s in row
order; timestamps as `Nat` ticks.  Parts of the repository that the claims
depend on but whose source is not shipped (notably `features/models.py`,
holding `FeatureState.__gt__` and the `clone` helpers, and the SDK identify
serializer) are modelled from the specification and marked as such in their
doc comments.
-/

namespace Flagsmith

/-- Request origin, from `core/request_origin.py` (values CLIENT / SERVER). -/
inductive RequestOrigin where
  | client
  | server
deriving DecidableEq

/-- Organisation snapshot: only the field the claims touch. -/
structure Organisation where
  persist_trait_data : Bool
deriving DecidableEq

/-- Project snapshot: `hide_disabled_flags` default and owning organisation. -/
structure Project where
  hide_disabled_flags : Bool
  organisation : Organisation
deriving DecidableEq

/-- Environment row, from `environments/models.py` (fields the claims use).
`hide_disabled_flags` is nullable (`models.BooleanField(null=True)`). -/
structure Environment where
  id : Nat
  name : String
  api_key : String
  hide_disabled_flags : Option Bool
  use_mv_v2_evaluation : Bool
  allow_client_traits : Bool
  project : Project
deriving DecidableEq

/-- FeatureSegment row: associates a segment with a feature in an environment,
carrying the integer `priority` (lower = higher priority). -/
structure FeatureSegment where
  id : Nat
  segment_id : Nat
  environment_id : Nat
  priority : Nat
deriving DecidableEq

/-- FeatureState row.  `identity_id` non-null means identity-override,
`feature_segment` non-null means segment-override, both null means
environment default.  `live_from` and `version` are nullable. -/
structure FeatureState where
  id : Nat
  feature_id : Nat
  environment_id : Nat
  identity_id : Option Nat
  feature_segment : Option FeatureSegment
  enabled : Bool
  value : String
  live_from : Option Nat
  version : Option Nat
deriving DecidableEq

/-- Identity row, from `environments/identities/models.py`. -/
structure Identity where
  id : Nat
  identifier : String
  environment : Environment
deriving DecidableEq

/-- `Identity.composite_key`: `f"{self.environment.api_key}_{self.identifier}"`. -/
def Identity.composite_key (ident : Identity) : String :=
  ident.environment.api_key ++ "_" ++ ident.identifier

/-- `Identity.get_hash_key`: composite key when `use_mv_v2_evaluation` else
the stringified numeric id. -/
def Identity.get_hash_key (ident : Identity) (use_mv_v2_evaluation : Bool) : String :=
  if use_mv_v2_evaluation then ident.composite_key else toString ident.id

/-- `Environment.get_hide_disabled_flags`: the environment value when
non-null, else the project default. -/
def Environment.get_hide_disabled_flags (env : Environment) : Bool :=
  match env.hide_disabled_flags with
  | some b => b
  | none => env.project.hide_disabled_flags

/-- `Environment.trait_persistence_allowed`: `allow_client_traits` or the
request originated from the server (`getattr(request, "originated_from",
RequestOrigin.CLIENT) == RequestOrigin.SERVER`).  A request without the
attribute is modelled as `none`, defaulting to client. -/
def Environment.trait_persistence_allowed (env : Environment)
    (originated_from : Option RequestOrigin) : Bool :=
  env.allow_client_traits
    || (originated_from.getD RequestOrigin.client == RequestOrigin.server)

/-! ### Candidate query and priority selection (`Identity.get_all_feature_states`) -/

/-- The `full_query` filter of `Identity.get_all_feature_states`:
live (`live_from <= now`, `version` non-null — a null `live_from` fails the
`lte` lookup), belongs to the environment, and is an identity override for
this identity, a segment override whose FeatureSegment sits in this
environment for a matching segment, or an environment default. -/
def full_query (now : Nat) (env_id : Nat) (identity_id : Nat)
    (segments : List Nat) (fs : FeatureState) : Bool :=
  (match fs.live_from with
   | some t => decide (t ≤ now)
   | none => false)
  && fs.version.isSome
  && (fs.environment_id == env_id)
  && ((fs.identity_id == some identity_id)
      || (match fs.feature_segment with
          | some fseg =>
              segments.contains fseg.segment_id
                && (fseg.environment_id == env_id)
          | none => false)
      || (fs.identity_id.isNone && fs.feature_segment.isNone))

/-- The candidate row set considered by `get_all_feature_states`: all rows
passing `full_query` (plus the optional `additional_filters`). -/
def candidate_states (ident : Identity) (now : Nat) (segments : List Nat)
    (additional_filters : Option (FeatureState → Bool))
    (all_states : List FeatureState) : List FeatureState :=
  all_states.filter (fun fs =>
    full_query now ident.environment.id ident.id segments fs
      && (match additional_filters with
          | some p => p fs
          | none => true))

/-- Priority tier of a feature state: identity-override (2) over
segment-override (1) over environment-default (0). -/
def fsTier (fs : FeatureState) : Nat :=
  if fs.identity_id.isSome then 2
  else if fs.feature_segment.isSome then 1
  else 0

/-- Modelled from the spec: `FeatureState.__gt__` lives in
`features/models.py`, which is not shipped; the spec defines the comparison
as a total order with identity-override highest, then segment-override
ranked by ascending FeatureSegment `priority` (lower wins) then descending
FeatureSegment id as tie-break, then environment-default lowest. -/
def FeatureState.gt (a b : FeatureState) : Bool :=
  if fsTier a = fsTier b then
    match a.feature_segment, b.feature_segment with
    | some x, some y =>
        if x.priority = y.priority then decide (y.id < x.id)
        else decide (x.priority < y.priority)
    | _, _ => false
  else decide (fsTier b < fsTier a)

/-- One step of the selection loop of `get_all_feature_states`: the Python
dict keyed on `feature_id` keeps insertion order and replaces in place when
`flag > current_flag`. -/
def insertFlag (acc : List FeatureState) (flag : FeatureState) : List FeatureState :=
  match acc with
  | [] => [flag]
  | cur :: rest =>
      if cur.feature_id = flag.feature_id then
        (if FeatureState.gt flag cur then flag else cur) :: rest
      else
        cur :: insertFlag rest flag

/-- The selection loop: fold the candidate rows in order, keeping per
feature the highest-priority flag seen so far. -/
def selectFlags (flags : List FeatureState) : List FeatureState :=
  flags.foldl insertFlag []

/-- `Identity.get_all_feature_states`: filter candidates, select the highest
priority flag per feature, and when the effective hide-disabled setting is
true drop disabled flags.  Matching segments are passed in as the result of
`get_segments(traits, overrides_only=True)` (segment models are external to
the shipped sources). -/
def Identity.get_all_feature_states (ident : Identity) (now : Nat)
    (matchingSegments : List Nat)
    (additional_filters : Option (FeatureState → Bool))
    (all_states : List FeatureState) : List FeatureState :=
  let all_flags := candidate_states ident now matchingSegments additional_filters all_states
  let identity_flags := selectFlags all_flags
  if ident.environment.get_hide_disabled_flags = true then
    identity_flags.filter (fun v => v.enabled)
  else
    identity_flags

/-! ### Traits (`Identity.generate_traits`, `Identity.update_traits`) -/

/-- Stored Trait row: key and (non-null) value for one identity. -/
structure TraitRow where
  trait_key : String
  trait_value : String
deriving DecidableEq

/-- An incoming trait data item as validated by TraitSerializerFull:
`trait_value` may be null. -/
structure TraitDataItem where
  trait_key : String
  trait_value : Option String
deriving DecidableEq

/-- `Identity.generate_traits`: items with a null value are removed first
("Remove traits having Null(None) values"), then a TraitModel is built per
surviving item; the `getD` default is unreachable under the filter.  When
`persist` is true the same list is bulk-created, so the persisted rows are
exactly the returned ones. -/
def Identity.generate_traits (trait_data_items : List TraitDataItem) : List TraitRow :=
  (trait_data_items.filter (fun item => item.trait_value.isSome)).map
    (fun item => { trait_key := item.trait_key, trait_value := item.trait_value.getD "" })

/-- Insert/overwrite into a Python-dict-like association list: an existing
key keeps its position, a new key is appended. -/
def dictInsert (d : List (String × String)) (k : String) (v : String) :
    List (String × String) :=
  match d with
  | [] => [(k, v)]
  | (k2, v2) :: rest =>
      if k2 = k then (k2, v) :: rest else (k2, v2) :: dictInsert rest k v

/-- The `current_traits` dict comprehension
`{t.trait_key: t for t in self.identity_traits.all()}`. -/
def toDict (ts : List TraitRow) : List (String × String) :=
  ts.foldl (fun d t => dictInsert d t.trait_key t.trait_value) []

/-- In-flight state of the `update_traits` loop: the in-memory
`current_traits` dict (mutated in place by `setattr`), the keys nulled by
the input, the staged new rows, and the keys appended to `updated_traits`
(the shared mutable objects make its effect "write the dict's final value
for that key"). -/
structure MergeAcc where
  cur : List (String × String)
  keys_to_delete : List String
  new_traits : List TraitRow
  updated_keys : List String
deriving DecidableEq

/-- One iteration of the `update_traits` loop over `trait_data_items`:
null value marks the key for deletion; an existing key with an unchanged
value is skipped; an existing key with a new value is updated in place;
an unknown key is staged as a new row. -/
def mergeStep (acc : MergeAcc) (item : String × Option String) : MergeAcc :=
  match item.2 with
  | none => { acc with keys_to_delete := acc.keys_to_delete ++ [item.1] }
  | some v =>
      match List.lookup item.1 acc.cur with
      | some curV =>
          if curV = v then acc
          else
            { acc with
                cur := dictInsert acc.cur item.1 v
                updated_keys := acc.updated_keys ++ [item.1] }
      | none =>
          { acc with
              new_traits := acc.new_traits ++ [{ trait_key := item.1, trait_value := v }] }

/-- The effect of `bulk_update` on one surviving row: a row whose key was
appended to `updated_traits` receives the final in-memory value of its
(shared, mutated) object, read off the dict; others are untouched. -/
def update_row (acc : MergeAcc) (t : TraitRow) : TraitRow :=
  if acc.updated_keys.contains t.trait_key then
    match List.lookup t.trait_key acc.cur with
    | some v => { t with trait_value := v }
    | none => t
  else t

/-- Apply the loop's outcome to the stored rows, in the source's order:
delete the nulled keys, bulk-update the updated rows (a row deleted just
before is silently not re-created by `bulk_update`), then bulk-create the
staged rows with `ignore_conflicts=True` (a row whose key already exists is
silently skipped). -/
def applyMerge (currentDb : List TraitRow) (acc : MergeAcc) : List TraitRow :=
  let after_delete :=
    currentDb.filter (fun t => !(acc.keys_to_delete.contains t.trait_key))
  let after_update := after_delete.map (update_row acc)
  acc.new_traits.foldl
    (fun db t =>
      if db.any (fun u => u.trait_key == t.trait_key) then db else db ++ [t])
    after_update

/-- `Identity.update_traits`: run the reconciliation loop over the incoming
items against the stored rows, apply deletions, updates and creations, and
return the full trait list for the identity afterwards (the source re-reads
`self.identity_traits.all()`, i.e. the resulting database state). -/
def Identity.update_traits (current : List TraitRow)
    (trait_data_items : List (String × Option String)) : List TraitRow :=
  applyMerge current
    (trait_data_items.foldl mergeStep
      { cur := toDict current, keys_to_delete := [], new_traits := [], updated_keys := [] })

/-! ### Environment clone -/

/-- The related rows of an environment that `Environment.clone` copies. -/
structure EnvironmentRelations where
  feature_segments : List FeatureSegment
  feature_states : List FeatureState
deriving DecidableEq

/-- Modelled from the spec: `FeatureSegment.clone` lives in
`features/models.py`, which is not shipped; per the spec it copies the
association into the new environment. -/
def FeatureSegment.clone (fseg : FeatureSegment) (newEnvId : Nat) : FeatureSegment :=
  { fseg with environment_id := newEnvId }

/-- Modelled from the spec: `FeatureState.clone` lives in
`features/models.py`, which is not shipped; per the spec it copies the
state into the new environment, keeping the passed `live_from`. -/
def FeatureState.clone (fs : FeatureState) (newEnvId : Nat)
    (live_from : Option Nat) : FeatureState :=
  { fs with environment_id := newEnvId, live_from := live_from }

/-- `Environment.clone`: deep-copy the environment row with a fresh id, the
given name and api key, clone every feature segment, and clone only the
feature states with `identity=None` (identity-scoped states are skipped),
each keeping its own `live_from`. -/
def Environment.clone (env : Environment) (rel : EnvironmentRelations)
    (newId : Nat) (name : String) (api_key : String) :
    Environment × EnvironmentRelations :=
  ({ env with id := newId, name := name, api_key := api_key },
   { feature_segments := rel.feature_segments.map (fun fseg => fseg.clone newId),
     feature_states :=
       (rel.feature_states.filter (fun fs => fs.identity_id.isNone)).map
         (fun fs => fs.clone newId fs.live_from) })

/-! ### Trait-persistence policy surfaces -/

/-- Error signals surfaced to callers by the trait-write boundaries. -/
inductive ApiError where
  | traitPersistence
  | permissionDenied
  | validation
deriving DecidableEq

/-- `EdgeIdentityViewSet.update_traits`: raises `TraitPersistenceError` when
the organisation's `persist_trait_data` is false, before doing any work;
otherwise the update runs and its outcome is returned. -/
def edge_update_traits {α : Type} (env : Environment) (outcome : α) :
    Except ApiError α :=
  if !env.project.organisation.persist_trait_data then
    Except.error ApiError.traitPersistence
  else
    Except.ok outcome

/-- `TraitPersistencePermissions.has_permission`: allowed exactly when the
organisation persists trait data. -/
def trait_persistence_has_permission (env : Environment) : Bool :=
  env.project.organisation.persist_trait_data

/-- Modelled from the spec: the request pipeline guarding a view with
permission classes (framework behaviour, not shipped) rejects the request
with an explicit permission-denied error when any permission check fails,
and only then runs the handler. -/
def run_with_permissions {α : Type} (perms : List Bool) (handler : α) :
    Except ApiError α :=
  if perms.all (fun b => b) then Except.ok handler
  else Except.error ApiError.permissionDenied

/-- Modelled from the spec: the SDK identify serializer
(`environments/identities/serializers.py`, not shipped) rejects a request
carrying traits with an explicit validation error when
`Environment.trait_persistence_allowed` is false for the request. -/
def sdk_identify_validate_traits (env : Environment)
    (originated_from : Option RequestOrigin)
    (traits : List (String × Option String)) :
    Except ApiError (List (String × Option String)) :=
  if !traits.isEmpty && !(env.trait_persistence_allowed originated_from) then
    Except.error ApiError.validation
  else
    Except.ok traits

/-! ### Order lemmas for the priority comparison -/

/-- Characterization of the priority comparison: strictly greater tier, or
equal tier with both segment references present and a strictly better
(priority asc, id desc) lexicographic rank. -/
theorem gt_iff (a b : FeatureState) :
    a.gt b = true ↔
      fsTier b < fsTier a ∨
        (fsTier a = fsTier b ∧ ∃ x y, a.feature_segment = some x ∧
          b.feature_segment = some y ∧
          (x.priority < y.priority ∨ (x.priority = y.priority ∧ y.id < x.id))) := by
  unfold FeatureState.gt
  by_cases h : fsTier a = fsTier b
  · rw [if_pos h]
    rcases ha : a.feature_segment with _ | x <;>
      rcases hb : b.feature_segment with _ | y
    · simp [h, ha, hb]
    · simp [h, ha, hb]
    · simp [h, ha, hb]
    · by_cases hp : x.priority = y.priority
      · simp [h, ha, hb, hp]
      · simp [h, ha, hb, hp]
  · rw [if_neg h]
    simp [h]

/-- The priority comparison never ranks a state above itself. -/
theorem gt_irrefl (a : FeatureState) : a.gt a = false := by
  rw [← Bool.not_eq_true, gt_iff]
  rintro (h | ⟨-, x, y, hx, hy, h⟩)
  · exact lt_irrefl _ h
  · rw [hx] at hy
    obtain rfl : x = y := by injection hy
    omega

/-- The priority comparison is transitive. -/
theorem gt_trans {a b c : FeatureState} (hab : a.gt b = true)
    (hbc : b.gt c = true) : a.gt c = true := by
  rw [gt_iff] at hab hbc ⊢
  rcases hab with h1 | ⟨e1, x, y, hax, hby, h1⟩
  · rcases hbc with h2 | ⟨e2, x2, y2, hbx2, hcy2, h2⟩
    · exact Or.inl (lt_trans h2 h1)
    · exact Or.inl (e2 ▸ h1)
  · rcases hbc with h2 | ⟨e2, x2, y2, hbx2, hcy2, h2⟩
    · exact Or.inl (by rw [e1]; exact h2)
    · obtain rfl : y = x2 := by rw [hby] at hbx2; injection hbx2
      refine Or.inr ⟨e1.trans e2, x, y2, hax, hcy2, ?_⟩
      omega

/-! ### Selection loop lemmas -/

/-- Any list of flags either has no entry for a feature id, or splits as a
prefix without it, the first entry carrying it, and a suffix. -/
theorem flag_decomp (acc : List FeatureState) (fid : Nat) :
    (∀ s ∈ acc, s.feature_id ≠ fid) ∨
      ∃ l1 cur l2, acc = l1 ++ cur :: l2 ∧ cur.feature_id = fid ∧
        ∀ s ∈ l1, s.feature_id ≠ fid := by
  induction acc with
  | nil => exact Or.inl (by simp)
  | cons head tail ih =>
    by_cases hh : head.feature_id = fid
    · exact Or.inr ⟨[], head, tail, rfl, hh, by simp⟩
    · rcases ih with h | ⟨l1, cur, l2, heq, hcur, hl1⟩
      · refine Or.inl ?_
        intro s hs
        rcases List.mem_cons.1 hs with rfl | hs
        · exact hh
        · exact h s hs
      · refine Or.inr ⟨head :: l1, cur, l2, by rw [heq]; rfl, hcur, ?_⟩
        intro s hs
        rcases List.mem_cons.1 hs with rfl | hs
        · exact hh
        · exact hl1 s hs

/-- When no entry holds the flag's feature id, the insertion appends. -/
theorem insertFlag_eq_append (acc : List FeatureState) (flag : FeatureState)
    (h : ∀ s ∈ acc, s.feature_id ≠ flag.feature_id) :
    insertFlag acc flag = acc ++ [flag] := by
  induction acc with
  | nil => rfl
  | cons head tail ih =>
    unfold insertFlag
    rw [if_neg (h head (List.mem_cons_self _ _))]
    rw [ih (fun s hs => h s (List.mem_cons_of_mem _ hs))]
    rfl

/-- When the first entry with the flag's feature id is `cur`, the insertion
replaces it in place iff the new flag wins the comparison. -/
theorem insertFlag_eq_replace (l1 : List FeatureState) (cur : FeatureState)
    (l2 : List FeatureState) (flag : FeatureState)
    (hcur : cur.feature_id = flag.feature_id)
    (hl1 : ∀ s ∈ l1, s.feature_id ≠ flag.feature_id) :
    insertFlag (l1 ++ cur :: l2) flag
      = l1 ++ (if flag.gt cur then flag else cur) :: l2 := by
  induction l1 with
  | nil =>
    simp only [List.nil_append, insertFlag]
    rw [if_pos hcur]
  | cons head t ih =>
    simp only [List.cons_append, insertFlag, List.append_eq]
    rw [if_neg (hl1 head (List.mem_cons_self _ _))]
    rw [ih (fun s hs => hl1 s (List.mem_cons_of_mem _ hs))]

/-- Invariant of the selection loop after consuming `seen`: the kept flags
come from `seen`, hold pairwise-distinct feature ids, cover every feature id
of `seen`, and none of `seen` strictly beats the kept flag of its feature. -/
def SelectInv (seen acc : List FeatureState) : Prop :=
  (∀ s ∈ acc, s ∈ seen) ∧
  List.Pairwise (fun a b => a.feature_id ≠ b.feature_id) acc ∧
  (∀ c ∈ seen, ∃ s ∈ acc, s.feature_id = c.feature_id) ∧
  (∀ s ∈ acc, ∀ c ∈ seen, c.feature_id = s.feature_id → c.gt s = false)

/-- One insertion preserves the selection invariant. -/
theorem selectInv_insert {seen acc : List FeatureState}
    (h : SelectInv seen acc) (flag : FeatureState) :
    SelectInv (seen ++ [flag]) (insertFlag acc flag) := by
  obtain ⟨hmem, hnd, hcov, hmax⟩ := h
  rcases flag_decomp acc flag.feature_id with hnone | ⟨l1, cur, l2, rfl, hcur, hl1⟩
  · rw [insertFlag_eq_append acc flag hnone]
    refine ⟨?_, ?_, ?_, ?_⟩
    · intro s hs
      rcases List.mem_append.1 hs with h | h
      · exact List.mem_append_left _ (hmem s h)
      · rw [List.mem_singleton.1 h]
        exact List.mem_append_right _ (by simp)
    · rw [List.pairwise_append]
      refine ⟨hnd, by simp, ?_⟩
      intro a ha b hb
      rw [List.mem_singleton.1 hb]
      exact hnone a ha
    · intro c hc
      rcases List.mem_append.1 hc with h | h
      · rcases hcov c h with ⟨s, hs, hfe⟩
        exact ⟨s, List.mem_append_left _ hs, hfe⟩
      · refine ⟨flag, List.mem_append_right _ (by simp), ?_⟩
        rw [List.mem_singleton.1 h]
    · intro s hs c hc hfe
      rcases List.mem_append.1 hs with hsa | hsf
      · rcases List.mem_append.1 hc with hcs | hcf
        · exact hmax s hsa c hcs hfe
        · have hcf2 : c = flag := List.mem_singleton.1 hcf
          rw [hcf2] at hfe
          exact absurd hfe.symm (hnone s hsa)
      · have hsf2 : s = flag := List.mem_singleton.1 hsf
        rcases List.mem_append.1 hc with hcs | hcf
        · rcases hcov c hcs with ⟨w, hw, hwf⟩
          rw [hsf2] at hfe
          exact absurd (hwf.trans hfe) (hnone w hw)
        · rw [hsf2, List.mem_singleton.1 hcf]
          exact gt_irrefl flag
  · rw [insertFlag_eq_replace l1 cur l2 flag hcur hl1]
    have hcur_mem : cur ∈ l1 ++ cur :: l2 := by simp
    have hndp := List.pairwise_append.1 hnd
    obtain ⟨hp1, hp2, hp12⟩ := hndp
    obtain ⟨hcurl2, hl2p⟩ := List.pairwise_cons.1 hp2
    by_cases hwin : flag.gt cur = true
    · rw [if_pos hwin]
      refine ⟨?_, ?_, ?_, ?_⟩
      · intro s hs
        rcases List.mem_append.1 hs with h | h
        · exact List.mem_append_left _ (hmem s (List.mem_append_left _ h))
        · rcases List.mem_cons.1 h with h2 | h2
          · rw [h2]
            exact List.mem_append_right _ (by simp)
          · exact List.mem_append_left _ (hmem s (by simp [h2]))
      · rw [List.pairwise_append]
        refine ⟨hp1, List.pairwise_cons.2 ⟨?_, hl2p⟩, ?_⟩
        · intro b hb
          rw [← hcur]
          exact hcurl2 b hb
        · intro a ha b hb
          rcases List.mem_cons.1 hb with rfl | hb
          · rw [← hcur]
            exact hp12 a ha cur (List.mem_cons_self _ _)
          · exact hp12 a ha b (List.mem_cons_of_mem _ hb)
      · intro c hc
        rcases List.mem_append.1 hc with h | h
        · rcases hcov c h with ⟨s, hs, hfe⟩
          rcases List.mem_append.1 hs with h1 | h1
          · exact ⟨s, List.mem_append_left _ h1, hfe⟩
          · rcases List.mem_cons.1 h1 with rfl | h1
            · exact ⟨flag, List.mem_append_right _ (List.mem_cons_self _ _),
                hcur.symm.trans hfe⟩
            · exact ⟨s, List.mem_append_right _ (List.mem_cons_of_mem _ h1), hfe⟩
        · refine ⟨flag, List.mem_append_right _ (List.mem_cons_self _ _), ?_⟩
          rw [List.mem_singleton.1 h]
      · intro s hs c hc hfe
        rcases List.mem_append.1 hs with hsl1 | hsx
        · rcases List.mem_append.1 hc with hcs | hcf
          · exact hmax s (List.mem_append_left _ hsl1) c hcs hfe
          · rw [List.mem_singleton.1 hcf] at hfe
            exact absurd hfe.symm (hl1 s hsl1)
        · rcases List.mem_cons.1 hsx with hsf | hsl2
          · rw [hsf] at hfe ⊢
            rcases List.mem_append.1 hc with hcs | hcf
            · have hccur : c.gt cur = false :=
                hmax cur hcur_mem c hcs (hfe.trans hcur.symm)
              rw [← Bool.not_eq_true]
              intro hcflag
              rw [← Bool.not_eq_true] at hccur
              exact hccur (gt_trans hcflag hwin)
            · rw [List.mem_singleton.1 hcf]
              exact gt_irrefl flag
          · rcases List.mem_append.1 hc with hcs | hcf
            · exact hmax s
                (List.mem_append_right _ (List.mem_cons_of_mem _ hsl2)) c hcs hfe
            · rw [List.mem_singleton.1 hcf] at hfe
              exact absurd (hcur.trans hfe) (hcurl2 s hsl2)
    · rw [if_neg hwin]
      have hlose : flag.gt cur = false := by
        rwa [Bool.not_eq_true] at hwin
      refine ⟨?_, hnd, ?_, ?_⟩
      · intro s hs
        exact List.mem_append_left _ (hmem s hs)
      · intro c hc
        rcases List.mem_append.1 hc with h | h
        · exact hcov c h
        · refine ⟨cur, hcur_mem, ?_⟩
          rw [List.mem_singleton.1 h]
          exact hcur
      · intro s hs c hc hfe
        rcases List.mem_append.1 hc with hcs | hcf
        · exact hmax s hs c hcs hfe
        · have hcf2 : c = flag := List.mem_singleton.1 hcf
          rcases List.mem_append.1 hs with hsl1 | hsc
          · rw [hcf2] at hfe
            exact absurd hfe.symm (hl1 s hsl1)
          · rcases List.mem_cons.1 hsc with rfl | hsl2
            · rw [hcf2]
              exact hlose
            · rw [hcf2] at hfe
              exact absurd (hcur.trans hfe) (hcurl2 s hsl2)

/-- Folding the selection step over a flag list preserves the invariant. -/
theorem selectFlags_fold_inv (flags : List FeatureState) :
    ∀ seen acc, SelectInv seen acc →
      SelectInv (seen ++ flags) (flags.foldl insertFlag acc) := by
  induction flags with
  | nil => intro seen acc h; simpa using h
  | cons f fs ih =>
    intro seen acc h
    have h3 := ih (seen ++ [f]) (insertFlag acc f) (selectInv_insert h f)
    simpa [List.append_assoc] using h3

/-- The selection loop satisfies the invariant against its whole input. -/
theorem selectFlags_inv (flags : List FeatureState) :
    SelectInv flags (selectFlags flags) := by
  have h := selectFlags_fold_inv flags [] [] ⟨by simp, by simp, by simp, by simp⟩
  simpa [selectFlags] using h

/-! ### Trait merge lemmas -/

/-- Looking up after a dict insertion: the inserted key maps to the new
value, every other key is unaffected. -/
theorem lookup_dictInsert (d : List (String × String)) (k v k2) :
    List.lookup k2 (dictInsert d k v) = if k2 = k then some v else List.lookup k2 d := by
  induction d with
  | nil =>
    by_cases h : k2 = k
    · simp [dictInsert, List.lookup, h]
    · simp [dictInsert, List.lookup, h, beq_false_of_ne h]
  | cons p rest ih =>
    rcases p with ⟨k3, v3⟩
    by_cases h3 : k3 = k
    · subst h3
      by_cases h : k2 = k3
      · simp [dictInsert, List.lookup, h]
      · simp [dictInsert, List.lookup, h, beq_false_of_ne h]
    · by_cases h : k2 = k3
      · have hk2k : k2 ≠ k := fun he => h3 (h ▸ he)
        simp [dictInsert, List.lookup, h3, h, hk2k]
      · simp [dictInsert, List.lookup, h3, beq_false_of_ne h, ih]

/-- A key is found in the starting dict iff it is a key of the rows. -/
theorem lookup_toDict_isSome (ts : List TraitRow) (k : String) :
    (List.lookup k (toDict ts)).isSome = true ↔ k ∈ ts.map TraitRow.trait_key := by
  suffices h : ∀ d : List (String × String),
      (List.lookup k (ts.foldl (fun d t => dictInsert d t.trait_key t.trait_value) d)).isSome = true ↔
        (List.lookup k d).isSome = true ∨ k ∈ ts.map TraitRow.trait_key by
    have h2 := h []
    simpa [toDict, List.lookup] using h2
  induction ts with
  | nil => intro d; simp
  | cons t rest ih =>
    intro d
    rw [List.foldl_cons]
    rw [ih (dictInsert d t.trait_key t.trait_value)]
    rw [lookup_dictInsert]
    by_cases hk : k = t.trait_key <;> simp [hk]

/-- `bulk_update` never changes a row's key. -/
theorem update_row_key (acc : MergeAcc) (t : TraitRow) :
    (update_row acc t).trait_key = t.trait_key := by
  unfold update_row
  split
  · split <;> rfl
  · rfl

/-- A row whose key was never updated is returned unchanged. -/
theorem update_row_of_not_updated (acc : MergeAcc) (t : TraitRow)
    (h : ¬ acc.updated_keys.contains t.trait_key = true) :
    update_row acc t = t := by
  unfold update_row
  rw [if_neg h]

/-- One merge step preserves which keys the in-memory dict holds. -/
theorem mergeStep_cur_isSome (a : MergeAcc) (x : String × Option String) (k : String) :
    (List.lookup k (mergeStep a x).cur).isSome = (List.lookup k a.cur).isSome := by
  rcases x with ⟨xk, xv⟩
  cases xv with
  | none => rfl
  | some v =>
    rcases hl : List.lookup xk a.cur with _ | curV
    · simp [mergeStep, hl]
    · by_cases hv : curV = v
      · simp [mergeStep, hl, hv]
      · by_cases hk : k = xk
        · subst hk
          simp [mergeStep, hl, hv, lookup_dictInsert]
        · simp [mergeStep, hl, hv, lookup_dictInsert, hk]

/-- Folding merge steps preserves which keys the in-memory dict holds. -/
theorem merge_fold_cur_isSome (xs : List (String × Option String)) :
    ∀ (a : MergeAcc) (k : String),
      (List.lookup k ((xs.foldl mergeStep a).cur)).isSome
        = (List.lookup k a.cur).isSome := by
  induction xs with
  | nil => intro a k; rfl
  | cons x rest ih =>
    intro a k
    rw [List.foldl_cons, ih (mergeStep a x) k, mergeStep_cur_isSome]

/-- A merge step never drops a key staged for deletion. -/
theorem mergeStep_ktd_mono (a : MergeAcc) (x : String × Option String)
    {k : String} (h : k ∈ a.keys_to_delete) : k ∈ (mergeStep a x).keys_to_delete := by
  rcases x with ⟨xk, xv⟩
  cases xv with
  | none => exact List.mem_append_left _ h
  | some v =>
    rcases hl : List.lookup xk a.cur with _ | curV
    · simpa [mergeStep, hl] using h
    · by_cases hv : curV = v
      · simpa [mergeStep, hl, hv] using h
      · simpa [mergeStep, hl, hv] using h

/-- A key nulled anywhere in the input (or already staged) ends up staged
for deletion. -/
theorem merge_ktd (xs : List (String × Option String)) :
    ∀ (a : MergeAcc) (k : String),
      ((k, (none : Option String)) ∈ xs ∨ k ∈ a.keys_to_delete) →
      k ∈ (xs.foldl mergeStep a).keys_to_delete := by
  induction xs with
  | nil =>
    intro a k h
    rcases h with h | h
    · simp at h
    · exact h
  | cons x rest ih =>
    intro a k h
    rw [List.foldl_cons]
    apply ih
    rcases h with h | h
    · rcases List.mem_cons.1 h with h2 | h2
      · rw [← h2]
        exact Or.inr (List.mem_append_right _ (by simp))
      · exact Or.inl h2
    · exact Or.inr (mergeStep_ktd_mono a x h)

/-- Every staged new row either predates the fold or carries a key absent
from the dict at the start of the fold. -/
theorem merge_new_traits (xs : List (String × Option String)) :
    ∀ (a : MergeAcc), ∀ t ∈ (xs.foldl mergeStep a).new_traits,
      t ∈ a.new_traits ∨ (List.lookup t.trait_key a.cur).isSome = false := by
  induction xs with
  | nil => intro a t ht; exact Or.inl ht
  | cons x rest ih =>
    intro a t ht
    rw [List.foldl_cons] at ht
    rcases ih (mergeStep a x) t ht with h | h
    · rcases x with ⟨xk, xv⟩
      cases xv with
      | none => exact Or.inl h
      | some v =>
        rcases hl : List.lookup xk a.cur with _ | curV
        · simp only [mergeStep, hl] at h
          rcases List.mem_append.1 h with h2 | h2
          · exact Or.inl h2
          · refine Or.inr ?_
            rw [List.mem_singleton.1 h2]
            rw [hl]
            rfl
        · by_cases hv : curV = v
          · simp only [mergeStep, hl, if_pos hv] at h
            exact Or.inl h
          · simp only [mergeStep, hl, if_neg hv] at h
            exact Or.inl h
    · rw [mergeStep_cur_isSome] at h
      exact Or.inr h

/-- A key absent from the input is untouched by the whole loop: not staged
for deletion, not updated, and no staged new row carries it. -/
theorem merge_fold_untouched (xs : List (String × Option String)) :
    ∀ (a : MergeAcc) (k : String), k ∉ xs.map Prod.fst →
      (k ∈ (xs.foldl mergeStep a).keys_to_delete → k ∈ a.keys_to_delete) ∧
      (k ∈ (xs.foldl mergeStep a).updated_keys → k ∈ a.updated_keys) ∧
      (∀ t ∈ (xs.foldl mergeStep a).new_traits, t.trait_key = k → t ∈ a.new_traits) := by
  induction xs with
  | nil => intro a k _; exact ⟨fun h => h, fun h => h, fun t ht _ => ht⟩
  | cons x rest ih =>
    intro a k hk
    have hk1 : x.1 ≠ k := by
      intro he
      exact hk (by rw [← he]; exact List.mem_map_of_mem _ (List.mem_cons_self _ _))
    have hkrest : k ∉ rest.map Prod.fst := by
      intro h
      exact hk (by simpa using Or.inr h)
    rw [List.foldl_cons]
    obtain ⟨i1, i2, i3⟩ := ih (mergeStep a x) k hkrest
    rcases x with ⟨xk, xv⟩
    have hxk : xk ≠ k := hk1
    cases xv with
    | none =>
      refine ⟨fun h => ?_, fun h => i2 h, fun t ht hkey => i3 t ht hkey⟩
      have h2 := i1 h
      rcases List.mem_append.1 h2 with h3 | h3
      · exact h3
      · exact absurd (List.mem_singleton.1 h3) (fun he => hxk he.symm)
    | some v =>
      have hstep :
          (mergeStep a (xk, some v)).keys_to_delete = a.keys_to_delete ∧
          ((mergeStep a (xk, some v)).updated_keys = a.updated_keys ∨
            (mergeStep a (xk, some v)).updated_keys = a.updated_keys ++ [xk]) ∧
          ((mergeStep a (xk, some v)).new_traits = a.new_traits ∨
            (mergeStep a (xk, some v)).new_traits
              = a.new_traits ++ [{ trait_key := xk, trait_value := v }]) := by
        rcases hl : List.lookup xk a.cur with _ | curV
        · refine ⟨?_, Or.inl ?_, Or.inr ?_⟩ <;> simp [mergeStep, hl]
        · by_cases hv : curV = v
          · refine ⟨?_, Or.inl ?_, Or.inl ?_⟩ <;> simp [mergeStep, hl, hv]
          · refine ⟨?_, Or.inr ?_, Or.inl ?_⟩ <;> simp [mergeStep, hl, hv]
      obtain ⟨hd, hu, hn⟩ := hstep
      refine ⟨fun h => ?_, fun h => ?_, fun t ht hkey => ?_⟩
      · have h2 := i1 h
        rwa [hd] at h2
      · have h2 := i2 h
        rcases hu with he | he
        · rwa [he] at h2
        · rw [he] at h2
          rcases List.mem_append.1 h2 with h3 | h3
          · exact h3
          · exact absurd (List.mem_singleton.1 h3) (fun hh => hxk hh.symm)
      · have h2 := i3 t ht hkey
        rcases hn with he | he
        · rwa [he] at h2
        · rw [he] at h2
          rcases List.mem_append.1 h2 with h3 | h3
          · exact h3
          · rw [List.mem_singleton.1 h3] at hkey
            exact absurd hkey hxk

/-- Every row produced by the create fold comes from the database so far or
from the staged rows. -/
theorem create_fold_mem {t : TraitRow} (news : List TraitRow) :
    ∀ db, t ∈ news.foldl
        (fun db t2 =>
          if db.any (fun u => u.trait_key == t2.trait_key) then db else db ++ [t2])
        db →
      t ∈ db ∨ t ∈ news := by
  induction news with
  | nil => intro db h; exact Or.inl h
  | cons n rest ih =>
    intro db h
    rw [List.foldl_cons] at h
    rcases ih _ h with h2 | h2
    · by_cases hc : db.any (fun u => u.trait_key == n.trait_key) = true
      · rw [if_pos hc] at h2
        exact Or.inl h2
      · rw [if_neg hc] at h2
        rcases List.mem_append.1 h2 with h3 | h3
        · exact Or.inl h3
        · rw [List.mem_singleton.1 h3]
          exact Or.inr (List.mem_cons_self _ _)
    · exact Or.inr (List.mem_cons_of_mem _ h2)

/-- The create fold leaves the rows of an untouched key alone. -/
theorem filter_create (k : String) (news : List TraitRow)
    (hn : ∀ t ∈ news, t.trait_key ≠ k) :
    ∀ db : List TraitRow, (news.foldl
        (fun db t2 =>
          if db.any (fun u => u.trait_key == t2.trait_key) then db else db ++ [t2])
        db).filter (fun t => t.trait_key == k)
      = db.filter (fun t => t.trait_key == k) := by
  induction news with
  | nil => intro db; rfl
  | cons n rest ih =>
    intro db
    rw [List.foldl_cons,
      ih (fun s hs => hn s (List.mem_cons_of_mem _ hs)) _]
    by_cases hc : db.any (fun u => u.trait_key == n.trait_key) = true
    · rw [if_pos hc]
    · rw [if_neg hc, List.filter_append]
      have hone : [n].filter (fun t => t.trait_key == k) = [] := by
        simp [hn n (List.mem_cons_self _ _)]
      rw [hone, List.append_nil]

/-- Deletion and update leave the rows of an untouched key alone. -/
theorem filter_stages (acc : MergeAcc) (k : String)
    (hk1 : k ∉ acc.keys_to_delete) (hk2 : k ∉ acc.updated_keys)
    (l : List TraitRow) :
    ((l.filter (fun t => !(acc.keys_to_delete.contains t.trait_key))).map
        (update_row acc)).filter (fun t => t.trait_key == k)
      = l.filter (fun t => t.trait_key == k) := by
  induction l with
  | nil => rfl
  | cons t rest ih =>
    by_cases hkey : t.trait_key = k
    · have hrow : update_row acc t = t := by
        apply update_row_of_not_updated
        rw [hkey, List.elem_iff]
        exact hk2
      simp [List.filter_cons, hkey, hk1, hrow]
      simpa using ih
    · by_cases hc : acc.keys_to_delete.contains t.trait_key = true
      · have hmem : t.trait_key ∈ acc.keys_to_delete := List.elem_iff.1 hc
        simp [List.filter_cons, hmem, beq_false_of_ne hkey]
        simpa using ih
      · have hmem : t.trait_key ∉ acc.keys_to_delete := fun h => hc (List.elem_iff.2 h)
        simp [List.filter_cons, hmem, update_row_key, beq_false_of_ne hkey]
        simpa using ih

/-! ### Concrete fixtures used by the witnesses -/

/-- An organisation that persists trait data. -/
def orgA : Organisation := { persist_trait_data := true }

/-- A project that does not hide disabled flags by default. -/
def projA : Project := { hide_disabled_flags := false, organisation := orgA }

/-- A plain environment with no hide-disabled override. -/
def envA : Environment :=
  { id := 10, name := "env", api_key := "key", hide_disabled_flags := none,
    use_mv_v2_evaluation := true, allow_client_traits := true, project := projA }

/-- An identity in `envA`. -/
def identA : Identity := { id := 1, identifier := "user1", environment := envA }

/-- An identity in an environment that hides disabled flags. -/
def identHide : Identity :=
  { id := 1, identifier := "user1",
    environment := { envA with hide_disabled_flags := some true } }

/-- An environment whose organisation does not persist traits and whose
clients may not set traits. -/
def envPolicy : Environment :=
  { id := 11, name := "env2", api_key := "key2", hide_disabled_flags := none,
    use_mv_v2_evaluation := true, allow_client_traits := false,
    project := { hide_disabled_flags := false,
                 organisation := { persist_trait_data := false } } }

/-- Environment-default state for feature 100 in `envA`, disabled. -/
def fsDefault : FeatureState :=
  { id := 1, feature_id := 100, environment_id := 10, identity_id := none,
    feature_segment := none, enabled := false, value := "off",
    live_from := some 0, version := some 1 }

/-- A feature segment for segment 7 in `envA` at priority 2. -/
def fsegA : FeatureSegment :=
  { id := 5, segment_id := 7, environment_id := 10, priority := 2 }

/-- Segment-override state for feature 100 via `fsegA`. -/
def fsSeg : FeatureState :=
  { id := 2, feature_id := 100, environment_id := 10, identity_id := none,
    feature_segment := some fsegA, enabled := true, value := "seg",
    live_from := some 0, version := some 1 }

/-- Identity-override state for feature 100 for identity 1. -/
def fsIdent : FeatureState :=
  { id := 3, feature_id := 100, environment_id := 10, identity_id := some 1,
    feature_segment := none, enabled := true, value := "ident",
    live_from := some 0, version := some 1 }

/-! ### Theorems -/

/-- C6: `get_hash_key` returns the composite environment-api-key-plus-identifier
string when `use_mv_v2_evaluation` is true, and the identity's numeric id as a
string when it is false. -/
theorem get_hash_key_spec (ident : Identity) :
    ident.get_hash_key true = ident.environment.api_key ++ "_" ++ ident.identifier ∧
    ident.get_hash_key false = toString ident.id := by
  exact ⟨rfl, rfl⟩

/-- C10: `trait_persistence_allowed` is true for every request originating
from the server even when `allow_client_traits` is false, and is false
exactly when `allow_client_traits` is false and the request did not
originate from the server. -/
theorem trait_persistence_allowed_spec (env : Environment)
    (origin : Option RequestOrigin) :
    (origin = some RequestOrigin.server →
      env.trait_persistence_allowed origin = true) ∧
    (env.trait_persistence_allowed origin = false ↔
      env.allow_client_traits = false ∧ origin ≠ some RequestOrigin.server) := by
  unfold Environment.trait_persistence_allowed
  rcases origin with _ | o
  · simp
  · cases o <;> simp

/-- Witness for C10 at a concrete server-originated request on an
environment that disallows client traits. -/
theorem trait_persistence_allowed_witness :
    (some RequestOrigin.server = some RequestOrigin.server) ∧
    envPolicy.trait_persistence_allowed (some RequestOrigin.server) = true :=
  ⟨rfl, (trait_persistence_allowed_spec envPolicy (some RequestOrigin.server)).1 rfl⟩

/-- C9: `generate_traits` drops every item whose value is null before
building trait models: each returned trait comes from an item with a
non-null value, every item with a non-null value yields its trait, and the
output length is the number of non-null items. -/
theorem generate_traits_spec (items : List TraitDataItem) :
    (∀ t ∈ Identity.generate_traits items,
      ∃ item ∈ items, item.trait_value = some t.trait_value ∧
        item.trait_key = t.trait_key) ∧
    (∀ item ∈ items, ∀ v, item.trait_value = some v →
      ({ trait_key := item.trait_key, trait_value := v } : TraitRow)
        ∈ Identity.generate_traits items) ∧
    (Identity.generate_traits items).length
      = (items.filter (fun item => item.trait_value.isSome)).length := by
  refine ⟨?_, ?_, ?_⟩
  · intro t ht
    unfold Identity.generate_traits at ht
    rcases List.mem_map.1 ht with ⟨item, hmem, hEq⟩
    rcases List.mem_filter.1 hmem with ⟨hitems, hsome⟩
    rcases Option.isSome_iff_exists.1 hsome with ⟨v, hv⟩
    refine ⟨item, hitems, ?_, ?_⟩
    · subst hEq; simp [hv]
    · subst hEq; rfl
  · intro item hmem v hv
    unfold Identity.generate_traits
    refine List.mem_map.2 ⟨item, List.mem_filter.2 ⟨hmem, by simp [hv]⟩, ?_⟩
    simp [hv]
  · unfold Identity.generate_traits
    exact List.length_map _ _

/-- Witness for C9 on a concrete item list containing a null value. -/
theorem generate_traits_witness :
    (⟨"a", some "1"⟩ : TraitDataItem) ∈
        [(⟨"a", some "1"⟩ : TraitDataItem), ⟨"b", none⟩] ∧
    (⟨"a", some "1"⟩ : TraitDataItem).trait_value = some "1" ∧
    ({ trait_key := "a", trait_value := "1" } : TraitRow)
      ∈ Identity.generate_traits [⟨"a", some "1"⟩, ⟨"b", none⟩] :=
  ⟨by decide, rfl,
    (generate_traits_spec [⟨"a", some "1"⟩, ⟨"b", none⟩]).2.1
      ⟨"a", some "1"⟩ (by decide) "1" rfl⟩

/-- C8: cloning an environment clones every feature segment, clones exactly
the feature states whose identity is null, and clones no identity-scoped
state: every cloned state has a null identity and arises from a null-identity
source state. -/
theorem environment_clone_spec (env : Environment) (rel : EnvironmentRelations)
    (newId : Nat) (name api_key : String) :
    (∀ fseg ∈ rel.feature_segments,
      fseg.clone newId ∈ (env.clone rel newId name api_key).2.feature_segments) ∧
    (∀ fs ∈ rel.feature_states, fs.identity_id = none →
      fs.clone newId fs.live_from ∈ (env.clone rel newId name api_key).2.feature_states) ∧
    (∀ fs ∈ (env.clone rel newId name api_key).2.feature_states,
      fs.identity_id = none ∧
        ∃ s ∈ rel.feature_states, s.identity_id = none ∧
          fs = s.clone newId s.live_from) := by
  refine ⟨?_, ?_, ?_⟩
  · intro fseg hmem
    exact List.mem_map.2 ⟨fseg, hmem, rfl⟩
  · intro fs hmem hid
    refine List.mem_map.2 ⟨fs, List.mem_filter.2 ⟨hmem, ?_⟩, rfl⟩
    simp [hid]
  · intro fs hmem
    rcases List.mem_map.1 hmem with ⟨s, hsmem, hEq⟩
    rcases List.mem_filter.1 hsmem with ⟨hsrc, hnone⟩
    have hid : s.identity_id = none := by
      simpa [Option.isNone_iff_eq_none] using hnone
    refine ⟨?_, s, hsrc, hid, hEq.symm⟩
    rw [← hEq]
    simpa [FeatureState.clone] using hid

/-- Witness for C8: the null-identity default state is cloned into the new
environment. -/
theorem environment_clone_witness :
    fsDefault ∈ (⟨[fsegA], [fsDefault, fsIdent]⟩ : EnvironmentRelations).feature_states ∧
    fsDefault.identity_id = none ∧
    fsDefault.clone 20 fsDefault.live_from ∈
      (envA.clone ⟨[fsegA], [fsDefault, fsIdent]⟩ 20 "copy" "key3").2.feature_states :=
  ⟨by decide, rfl,
    (environment_clone_spec envA ⟨[fsegA], [fsDefault, fsIdent]⟩ 20 "copy" "key3").2.1
      fsDefault (by decide) rfl⟩

/-- C7: when trait persistence is disallowed the trait-write boundaries
reject the request with an explicit error: the edge update-traits view
raises the trait-persistence error and the permission-guarded pipeline
denies the request when the organisation does not persist traits, and the
SDK identify boundary rejects client trait writes with a validation error
when `allow_client_traits` is false and the request is not server-originated. -/
theorem trait_persistence_policy_spec {α : Type} (env : Environment)
    (outcome : α) (origin : Option RequestOrigin)
    (traits : List (String × Option String)) :
    (env.project.organisation.persist_trait_data = false →
      edge_update_traits env outcome = Except.error ApiError.traitPersistence ∧
      run_with_permissions [trait_persistence_has_permission env] outcome
        = Except.error ApiError.permissionDenied) ∧
    (env.allow_client_traits = false → origin ≠ some RequestOrigin.server →
      traits ≠ [] →
      sdk_identify_validate_traits env origin traits
        = Except.error ApiError.validation) := by
  constructor
  · intro h
    constructor
    · simp [edge_update_traits, h]
    · simp [run_with_permissions, trait_persistence_has_permission, h]
  · intro hallow horigin htraits
    unfold sdk_identify_validate_traits Environment.trait_persistence_allowed
    rcases origin with _ | o
    · simp [hallow, htraits, List.isEmpty_iff]
    · cases o
      · simp [hallow, htraits, List.isEmpty_iff]
      · exact absurd rfl horigin

/-- Witness for C7 at a concrete environment that neither persists traits
nor allows client traits, with a client-originated trait write. -/
theorem trait_persistence_policy_witness :
    (envPolicy.project.organisation.persist_trait_data = false ∧
      edge_update_traits envPolicy (0 : Nat) = Except.error ApiError.traitPersistence ∧
      run_with_permissions [trait_persistence_has_permission envPolicy] (0 : Nat)
        = Except.error ApiError.permissionDenied) ∧
    (envPolicy.allow_client_traits = false ∧
      sdk_identify_validate_traits envPolicy none [("a", some "1")]
        = Except.error ApiError.validation) :=
  ⟨⟨rfl, (trait_persistence_policy_spec envPolicy (0 : Nat) none [("a", some "1")]).1 rfl⟩,
   rfl, (trait_persistence_policy_spec envPolicy (0 : Nat) none [("a", some "1")]).2
          rfl (by simp) (by simp)⟩

/-- C3: the effective hide-disabled setting is the environment's value when
non-null else the project's, and when it is true every state returned by
`get_all_feature_states` is enabled (disabled states are absent entirely). -/
theorem hide_disabled_flags_spec (ident : Identity) (now : Nat)
    (segs : List Nat) (addl : Option (FeatureState → Bool))
    (states : List FeatureState) :
    (∀ b, ident.environment.hide_disabled_flags = some b →
      ident.environment.get_hide_disabled_flags = b) ∧
    (ident.environment.hide_disabled_flags = none →
      ident.environment.get_hide_disabled_flags
        = ident.environment.project.hide_disabled_flags) ∧
    (ident.environment.get_hide_disabled_flags = true →
      ∀ s ∈ ident.get_all_feature_states now segs addl states, s.enabled = true) := by
  refine ⟨?_, ?_, ?_⟩
  · intro b hb
    unfold Environment.get_hide_disabled_flags
    rw [hb]
  · intro hnone
    unfold Environment.get_hide_disabled_flags
    rw [hnone]
  · intro hhide s hs
    unfold Identity.get_all_feature_states at hs
    rw [hhide] at hs
    simp only [if_pos rfl] at hs
    exact (List.mem_filter.1 hs).2

/-- Witness for C3: in an environment with `hide_disabled_flags = some true`
every returned state is enabled, at a concrete disabled default plus enabled
identity override. -/
theorem hide_disabled_flags_witness :
    identHide.environment.get_hide_disabled_flags = true ∧
    ∀ s ∈ identHide.get_all_feature_states 5 [7] none [fsDefault, fsSeg, fsIdent],
      s.enabled = true :=
  ⟨rfl, (hide_disabled_flags_spec identHide 5 [7] none [fsDefault, fsSeg, fsIdent]).2.2 rfl⟩

/-- C2: the resolution is a pure function of its inputs: with the identity,
clock, matching segments, filters and candidate rows (in their order) held
fixed, two invocations of `get_all_feature_states` return identical output,
including when candidates tie under the priority order. -/
theorem resolution_deterministic (ident : Identity) (now : Nat)
    (segs : List Nat) (addl : Option (FeatureState → Bool))
    (xs ys : List FeatureState) (h : xs = ys) :
    ident.get_all_feature_states now segs addl xs
      = ident.get_all_feature_states now segs addl ys := by
  rw [h]

/-- Witness for C2 on a concrete input containing two segment overrides that
tie under the priority order. -/
theorem resolution_deterministic_witness :
    ([fsSeg, { fsSeg with id := 4, value := "seg2" }, fsDefault]
      = [fsSeg, { fsSeg with id := 4, value := "seg2" }, fsDefault]) ∧
    identA.get_all_feature_states 5 [7] none
        [fsSeg, { fsSeg with id := 4, value := "seg2" }, fsDefault]
      = identA.get_all_feature_states 5 [7] none
        [fsSeg, { fsSeg with id := 4, value := "seg2" }, fsDefault] :=
  ⟨rfl, resolution_deterministic identA 5 [7] none _ _ rfl⟩

/-- C4: the candidate set considered by `get_all_feature_states` (with no
additional filters) consists exactly of the rows with `live_from <= now` and
a non-null `version`, in the identity's environment, that are an override
for this identity, an override for a matching segment whose FeatureSegment
sits in this environment, or an environment default. -/
theorem candidate_set_spec (ident : Identity) (now : Nat) (segs : List Nat)
    (states : List FeatureState) (fs : FeatureState) :
    fs ∈ candidate_states ident now segs none states ↔
      fs ∈ states ∧
        (∃ t, fs.live_from = some t ∧ t ≤ now) ∧
        fs.version ≠ none ∧
        fs.environment_id = ident.environment.id ∧
        (fs.identity_id = some ident.id ∨
          (∃ fseg, fs.feature_segment = some fseg ∧
            fseg.segment_id ∈ segs ∧
            fseg.environment_id = ident.environment.id) ∨
          (fs.identity_id = none ∧ fs.feature_segment = none)) := by
  unfold candidate_states full_query
  rw [List.mem_filter]
  rcases hlf : fs.live_from with _ | t <;>
    rcases hfs : fs.feature_segment with _ | fseg <;>
      simp [hlf, hfs, Option.isSome_iff_exists, Option.isNone_iff_eq_none,
        List.elem_iff, Bool.and_eq_true, Bool.or_eq_true, beq_iff_eq,
        decide_eq_true_eq, Option.ne_none_iff_exists] <;>
    · intro _hmem
      constructor
      · rintro ⟨⟨⟨hle, v, hv⟩, henv⟩, hor⟩
        exact ⟨hle, ⟨v, hv.symm⟩, henv, hor⟩
      · rintro ⟨hle, ⟨v, hv⟩, henv, hor⟩
        exact ⟨⟨⟨hle, v, hv.symm⟩, henv⟩, hor⟩

/-- Witness for C4 at a concrete live segment-override row. -/
theorem candidate_set_witness :
    fsSeg ∈ candidate_states identA 5 [7] none [fsDefault, fsSeg, fsIdent] ↔
      fsSeg ∈ [fsDefault, fsSeg, fsIdent] ∧
        (∃ t, fsSeg.live_from = some t ∧ t ≤ 5) ∧
        fsSeg.version ≠ none ∧
        fsSeg.environment_id = identA.environment.id ∧
        (fsSeg.identity_id = some identA.id ∨
          (∃ fseg, fsSeg.feature_segment = some fseg ∧
            fseg.segment_id ∈ [7] ∧
            fseg.environment_id = identA.environment.id) ∨
          (fsSeg.identity_id = none ∧ fsSeg.feature_segment = none)) :=
  candidate_set_spec identA 5 [7] [fsDefault, fsSeg, fsIdent] fsSeg

/-- C1: with the effective hide-disabled setting off, `get_all_feature_states`
returns exactly one feature state per feature id present among the
candidates, each returned state is a candidate, and it is maximal for its
feature under the priority ordering identity-override > segment-override >
environment-default (segment-overrides ranked by ascending FeatureSegment
priority): no candidate for the same feature strictly beats it. -/
theorem priority_resolution_spec (ident : Identity) (now : Nat)
    (segs : List Nat) (addl : Option (FeatureState → Bool))
    (states : List FeatureState)
    (hhide : ident.environment.get_hide_disabled_flags = false) :
    (∀ s ∈ ident.get_all_feature_states now segs addl states,
      s ∈ candidate_states ident now segs addl states) ∧
    List.Pairwise (fun a b => a.feature_id ≠ b.feature_id)
      (ident.get_all_feature_states now segs addl states) ∧
    (∀ c ∈ candidate_states ident now segs addl states,
      ∃ s ∈ ident.get_all_feature_states now segs addl states,
        s.feature_id = c.feature_id) ∧
    (∀ s ∈ ident.get_all_feature_states now segs addl states,
      ∀ c ∈ candidate_states ident now segs addl states,
        c.feature_id = s.feature_id → c.gt s = false) := by
  have hresult : ident.get_all_feature_states now segs addl states
      = selectFlags (candidate_states ident now segs addl states) := by
    unfold Identity.get_all_feature_states
    rw [hhide]
    simp
  rw [hresult]
  exact selectFlags_inv (candidate_states ident now segs addl states)

/-- Witness for C1 on the spec's priority-ordering scenario: an
environment default, a segment override (priority 2) and an identity
override for feature 100; the identity override is selected. -/
theorem priority_resolution_witness :
    identA.environment.get_hide_disabled_flags = false ∧
    ((∀ s ∈ identA.get_all_feature_states 5 [7] none [fsDefault, fsSeg, fsIdent],
        s ∈ candidate_states identA 5 [7] none [fsDefault, fsSeg, fsIdent]) ∧
      List.Pairwise (fun a b => a.feature_id ≠ b.feature_id)
        (identA.get_all_feature_states 5 [7] none [fsDefault, fsSeg, fsIdent]) ∧
      (∀ c ∈ candidate_states identA 5 [7] none [fsDefault, fsSeg, fsIdent],
        ∃ s ∈ identA.get_all_feature_states 5 [7] none [fsDefault, fsSeg, fsIdent],
          s.feature_id = c.feature_id) ∧
      (∀ s ∈ identA.get_all_feature_states 5 [7] none [fsDefault, fsSeg, fsIdent],
        ∀ c ∈ candidate_states identA 5 [7] none [fsDefault, fsSeg, fsIdent],
          c.feature_id = s.feature_id → c.gt s = false)) ∧
    identA.get_all_feature_states 5 [7] none [fsDefault, fsSeg, fsIdent] = [fsIdent] :=
  ⟨rfl, priority_resolution_spec identA 5 [7] none [fsDefault, fsSeg, fsIdent] rfl,
    by decide⟩

/-- C5: `update_traits` deletes every stored trait whose key is posted with
a null value (even alongside other items); posting a null value for a key
the identity does not have is a no-op (the function is total, so no error is
raised); traits whose keys do not appear in the incoming list are left
unchanged; the returned list is the full trait set after the merge. -/
theorem update_traits_spec (current : List TraitRow)
    (incoming : List (String × Option String)) :
    (∀ k, (k, (none : Option String)) ∈ incoming →
      k ∈ current.map TraitRow.trait_key →
      ∀ t ∈ Identity.update_traits current incoming, t.trait_key ≠ k) ∧
    (∀ k, k ∉ current.map TraitRow.trait_key →
      Identity.update_traits current [(k, none)] = current) ∧
    (∀ k, k ∉ incoming.map Prod.fst →
      (Identity.update_traits current incoming).filter (fun t => t.trait_key == k)
        = current.filter (fun t => t.trait_key == k)) := by
  refine ⟨?_, ?_, ?_⟩
  · intro k hnull hstored t ht hEq
    unfold Identity.update_traits applyMerge at ht
    dsimp only at ht
    set acc : MergeAcc := incoming.foldl mergeStep
      { cur := toDict current, keys_to_delete := [], new_traits := [],
        updated_keys := [] } with hacc
    have hdel : k ∈ acc.keys_to_delete := merge_ktd incoming _ k (Or.inl hnull)
    rcases create_fold_mem _ _ ht with h | h
    · rcases List.mem_map.1 h with ⟨t0, ht0, hEq0⟩
      have ht0f := List.mem_filter.1 ht0
      have hb := ht0f.2
      have hkt : t.trait_key = t0.trait_key := by
        rw [← hEq0]
        exact update_row_key _ t0
      have hkt2 : t0.trait_key = k := hkt.symm.trans hEq
      simp only [Bool.not_eq_true'] at hb
      rw [hkt2] at hb
      have hc : acc.keys_to_delete.contains k = true := List.elem_iff.2 hdel
      rw [hb] at hc
      exact absurd hc (by decide)
    · rcases merge_new_traits incoming _ t h with h2 | h2
      · simp at h2
      · dsimp only at h2
        rw [hEq] at h2
        have h3 := (lookup_toDict_isSome current k).2 hstored
        rw [h3] at h2
        exact absurd h2 (by decide)
  · intro k hk
    unfold Identity.update_traits
    rw [List.foldl_cons, List.foldl_nil]
    have hstep : mergeStep
        { cur := toDict current, keys_to_delete := [], new_traits := [],
          updated_keys := [] } (k, none)
        = { cur := toDict current, keys_to_delete := [k], new_traits := [],
            updated_keys := [] } := by
      simp [mergeStep]
    rw [hstep]
    unfold applyMerge
    dsimp only
    rw [List.foldl_nil]
    have hfil : current.filter
        (fun t => !(([k] : List String).contains t.trait_key)) = current := by
      apply List.filter_eq_self.2
      intro t ht
      have hne : t.trait_key ≠ k := by
        intro he
        exact hk (by rw [← he]; exact List.mem_map_of_mem _ ht)
      simp [List.elem_iff, hne]
    rw [hfil]
    have hmap : ∀ t, update_row
        { cur := toDict current, keys_to_delete := [k], new_traits := [],
          updated_keys := ([] : List String) } t = t := by
      intro t
      apply update_row_of_not_updated
      simp
    calc List.map (update_row
          { cur := toDict current, keys_to_delete := [k], new_traits := [],
            updated_keys := ([] : List String) }) current
        = List.map id current := List.map_congr_left (fun t _ => hmap t)
      _ = current := List.map_id current
  · intro k hk
    obtain ⟨h1, h2, h3⟩ := merge_fold_untouched incoming
      { cur := toDict current, keys_to_delete := [], new_traits := [],
        updated_keys := [] } k hk
    have hd : k ∉ (incoming.foldl mergeStep
        { cur := toDict current, keys_to_delete := [], new_traits := [],
          updated_keys := [] } : MergeAcc).keys_to_delete := by
      intro h
      simpa using h1 h
    have hu : k ∉ (incoming.foldl mergeStep
        { cur := toDict current, keys_to_delete := [], new_traits := [],
          updated_keys := [] } : MergeAcc).updated_keys := by
      intro h
      simpa using h2 h
    have hn : ∀ t ∈ (incoming.foldl mergeStep
        { cur := toDict current, keys_to_delete := [], new_traits := [],
          updated_keys := [] } : MergeAcc).new_traits, t.trait_key ≠ k := by
      intro t ht he
      simpa using h3 t ht he
    unfold Identity.update_traits applyMerge
    dsimp only
    rw [filter_create k _ hn]
    exact filter_stages _ k hd hu current

/-- Witness for C5 on concrete traits: a null posting deletes stored key
"a", a null posting for absent key "z" is a no-op, and untouched key "b"
keeps its rows. -/
theorem update_traits_witness :
    ((("a", (none : Option String))
        ∈ ([("a", none), ("c", some "3")] : List (String × Option String))) ∧
      "a" ∈ ([⟨"a", "1"⟩, ⟨"b", "2"⟩] : List TraitRow).map TraitRow.trait_key ∧
      ∀ t ∈ Identity.update_traits [⟨"a", "1"⟩, ⟨"b", "2"⟩]
          [("a", none), ("c", some "3")],
        t.trait_key ≠ "a") ∧
    ("z" ∉ ([⟨"a", "1"⟩, ⟨"b", "2"⟩] : List TraitRow).map TraitRow.trait_key ∧
      Identity.update_traits [⟨"a", "1"⟩, ⟨"b", "2"⟩] [("z", none)]
        = [⟨"a", "1"⟩, ⟨"b", "2"⟩]) ∧
    ("b" ∉ ([("a", (none : Option String)), ("c", some "3")]
        : List (String × Option String)).map Prod.fst ∧
      (Identity.update_traits [⟨"a", "1"⟩, ⟨"b", "2"⟩]
          [("a", none), ("c", some "3")]).filter (fun t => t.trait_key == "b")
        = ([⟨"a", "1"⟩, ⟨"b", "2"⟩] : List TraitRow).filter
            (fun t => t.trait_key == "b")) :=
  ⟨⟨by decide, by decide,
     (update_traits_spec [⟨"a", "1"⟩, ⟨"b", "2"⟩] [("a", none), ("c", some "3")]).1
       "a" (by decide) (by decide)⟩,
   ⟨by decide,
     (update_traits_spec [⟨"a", "1"⟩, ⟨"b", "2"⟩] []).2.1 "z" (by decide)⟩,
   ⟨by decide,
     (update_traits_spec [⟨"a", "1"⟩, ⟨"b", "2"⟩] [("a", none), ("c", some "3")]).2.2
       "b" (by decide)⟩⟩

end Flagsmith
